import Mathlib

/-!
Verification of the DNA-sequence one-hot encoding and alignment pipeline
of the `team_neural_network` repository.

The pipeline lives in two near-duplicate notebooks: one with strand
correction active (`to_positive_strand` called on `header[3]`), one with
that call commented out. We embed both variants.

Modelling decisions:
- the Python dictionary `base_pairs` becomes an association list with
  `find?`, so that a missing key yields `none` (the Python `KeyError`);
- Biopython's `Seq.complement()` (an external library call) complements
  each base in place without reversing, preserving case and mapping
  ambiguous bases to themselves; we embed that behaviour as
  `complementBase`;
- the mutable output parameters `X`, `y` of `process_seq_record` become a
  `DataState` record threaded explicitly; a Python exception raised
  mid-function leaves the mutations already performed in place, so the
  embedding returns the state as mutated up to the point of failure
  together with a success flag.
-/

/-- The Python dictionary `base_pairs` as an association list,
in the source's order. -/
def base_pairs_list : List (Char × List Int) :=
  [('A', [1, 0, 0, 0]),
   ('C', [0, 1, 0, 0]),
   ('G', [0, 0, 1, 0]),
   ('T', [0, 0, 0, 1]),
   ('a', [1, 0, 0, 0]),
   ('c', [0, 1, 0, 0]),
   ('g', [0, 0, 1, 0]),
   ('t', [0, 0, 0, 1]),
   ('n', [0, 0, 0, 0]),
   ('N', [0, 0, 0, 0])]

/-- Dictionary lookup `base_pairs[c]`: `none` models Python's `KeyError`. -/
def base_pairs (c : Char) : Option (List Int) :=
  (base_pairs_list.find? (fun p => p.1 == c)).map Prod.snd

/-- The defined alphabet: exactly the keys of `base_pairs`. -/
def alphabet : List Char :=
  ['A', 'C', 'G', 'T', 'a', 'c', 'g', 't', 'n', 'N']

/-- The list comprehension `[base_pairs[n] for n in sequence]`:
fails (KeyError) as soon as one symbol is missing from the dictionary. -/
def lookup_all : List Char → Option (List (List Int))
  | [] => some []
  | c :: cs =>
    match base_pairs c, lookup_all cs with
    | some v, some vs => some (v :: vs)
    | _, _ => none

/-- `align_sequence(length, sequence)` from the source: truncate to the
first `length` elements if longer, otherwise zero-pad on the right. -/
def align_sequence (length : Nat) (sequence : List Int) : List Int :=
  if sequence.length > length then
    sequence.take length
  else
    sequence ++ List.replicate (length - sequence.length) 0

/-- The Watson-Crick complement table used by Biopython's
`Seq.complement()` (restricted to the unambiguous bases; every other
symbol, including `N`/`n`, is translated to itself). -/
def complement_table : List (Char × Char) :=
  [('A', 'T'), ('T', 'A'), ('C', 'G'), ('G', 'C'),
   ('a', 't'), ('t', 'a'), ('c', 'g'), ('g', 'c')]

/-- Biopython's `Seq.complement()` on one symbol: Watson-Crick complement,
case-preserving, every symbol outside the table left unchanged.
The order of the sequence is NOT changed by `complement()`. -/
def complementBase (c : Char) : Char :=
  ((complement_table.find? (fun p => p.1 == c)).map Prod.snd).getD c

/-- `to_positive_strand(strand, sequence)` from the source (the variant in
which it is used): on strand `'-'` it one-hot encodes
`sequence.complement()` (complement only, order preserved), otherwise it
one-hot encodes the sequence as given. -/
def to_positive_strand (strand : String) (sequence : List Char) :
    Option (List (List Int)) :=
  if strand = "-" then
    lookup_all (sequence.map complementBase)
  else
    lookup_all sequence

/-- The feature computation of `process_seq_record`: strand handling,
one-hot encoding, flattening, alignment to 4000. `none` models an encoding
error (unknown symbol). -/
def encode (strand : String) (sequence : List Char) : Option (List Int) :=
  (to_positive_strand strand sequence).map (fun u => align_sequence 4000 u.flatten)

/-- Python's `str.split(sep)` for a one-character separator, on the
character list of the string: `""` splits to `[""]`, and a separator at
either end produces an empty field, exactly as in Python. -/
def pySplit (sep : Char) : List Char → List (List Char)
  | [] => [[]]
  | c :: cs =>
    match pySplit sep cs with
    | [] => [[]]
    | r :: rs => if c = sep then [] :: r :: rs else (c :: r) :: rs

/-- `description.split('|')` from the source. -/
def split_on_pipe (s : String) : List String :=
  (pySplit '|' s.toList).map String.mk

/-- The numeric value of a decimal digit, `none` otherwise. -/
def digitVal (c : Char) : Option Nat :=
  if '0' ≤ c ∧ c ≤ '9' then some (c.toNat - '0'.toNat) else none

/-- Accumulating decimal parser for a digit string. -/
def parseNatAux : List Char → Nat → Option Nat
  | [], acc => some acc
  | c :: cs, acc =>
    match digitVal c with
    | some d => parseNatAux cs (acc * 10 + d)
    | none => none

/-- A non-empty all-digit string parsed as a natural number. -/
def parseNat : List Char → Option Nat
  | [] => none
  | l => parseNatAux l 0

/-- Python's `int(s)` on a decimal string: optional sign followed by
digits; `none` models the `ValueError` on anything else. -/
def parseInt (s : String) : Option Int :=
  match s.toList with
  | '-' :: cs => (parseNat cs).map (fun n => -(n : Int))
  | '+' :: cs => (parseNat cs).map (fun n => (n : Int))
  | l => (parseNat l).map (fun n => (n : Int))

/-- A sequence record as handed over by the FASTA reader: an identifier,
a description line and the symbol sequence. -/
structure SeqRecord where
  id : String
  description : String
  seq : List Char
  deriving Repr, DecidableEq

/-- The caller-supplied output collections `X` and `y`. -/
structure DataState where
  X : List (List Int)
  y : List Int
  deriving Repr, DecidableEq

/-- `process_seq_record(seq_record, X, y)` of the strand-correcting
variant. The Boolean records whether the call ran to completion; on
failure the returned state holds exactly the mutations performed before
the exception (in particular `y.append(expressed)` precedes the encoding). -/
def process_seq_record (r : SeqRecord) (st : DataState) : DataState × Bool :=
  let header := split_on_pipe r.description
  match header[1]? >>= parseInt with
  | none => (st, false)
  | some expressed =>
    let st1 : DataState := { st with y := st.y ++ [expressed] }
    match header[3]? with
    | none => (st1, false)
    | some strand =>
      match to_positive_strand strand r.seq with
      | none => (st1, false)
      | some unflattened =>
        let flattened := unflattened.flatten
        let aligned := align_sequence 4000 flattened
        ({ st1 with X := st1.X ++ [aligned] }, true)

/-- `process_seq_record` of the variant with strand correction disabled
(the call to `to_positive_strand` commented out): the sequence is encoded
as given and `header[3]` is never read. -/
def process_seq_record_nsc (r : SeqRecord) (st : DataState) : DataState × Bool :=
  let header := split_on_pipe r.description
  match header[1]? >>= parseInt with
  | none => (st, false)
  | some expressed =>
    let st1 : DataState := { st with y := st.y ++ [expressed] }
    match lookup_all r.seq with
    | none => (st1, false)
    | some unflattened =>
      let flattened := unflattened.flatten
      let aligned := align_sequence 4000 flattened
      ({ st1 with X := st1.X ++ [aligned] }, true)

/-! ### Basic lemmas about the dictionary and the encoder -/

/-- Every value of the `base_pairs` dictionary has length 4. -/
theorem base_pairs_len {c : Char} {v : List Int} (h : base_pairs c = some v) :
    v.length = 4 := by
  unfold base_pairs at h
  rcases h' : base_pairs_list.find? (fun p => p.1 == c) with _ | p
  · rw [h'] at h; simp at h
  · rw [h'] at h
    have hmem := List.mem_of_find?_eq_some h'
    simp at h
    subst h
    fin_cases hmem <;> rfl

/-- A symbol of the alphabet is in the dictionary. -/
theorem base_pairs_isSome {c : Char} (h : c ∈ alphabet) :
    (base_pairs c).isSome := by
  fin_cases h <;> rfl

/-- A symbol outside the alphabet is missing from the dictionary. -/
theorem base_pairs_eq_none {c : Char} (h : c ∉ alphabet) :
    base_pairs c = none := by
  unfold base_pairs
  rw [List.find?_eq_none.mpr]
  · rfl
  · intro p hp hbeq
    apply h
    have : p.1 = c := by simpa using hbeq
    subst this
    fin_cases hp <;> simp [alphabet]

/-- `lookup_all` succeeds on a sequence over the alphabet. -/
theorem lookup_all_isSome {l : List Char} (h : ∀ c ∈ l, c ∈ alphabet) :
    ∃ u, lookup_all l = some u := by
  induction l with
  | nil => exact ⟨[], rfl⟩
  | cons c cs ih =>
    obtain ⟨u, hu⟩ := ih (fun x hx => h x (List.mem_cons_of_mem _ hx))
    have hc := base_pairs_isSome (h c (List.mem_cons_self _ _))
    rcases hv : base_pairs c with _ | v
    · rw [hv] at hc; simp at hc
    · exact ⟨v :: u, by simp [lookup_all, hv, hu]⟩

/-- `lookup_all` fails as soon as one symbol is outside the alphabet. -/
theorem lookup_all_eq_none {l : List Char} (h : ∃ c ∈ l, c ∉ alphabet) :
    lookup_all l = none := by
  induction l with
  | nil => simp at h
  | cons c cs ih =>
    obtain ⟨d, hd, hdn⟩ := h
    rcases List.mem_cons.mp hd with rfl | hd'
    · simp [lookup_all, base_pairs_eq_none hdn]
    · rw [lookup_all, ih ⟨d, hd', hdn⟩]
      rcases base_pairs c with _ | v <;> rfl

/-- Every element of a successful `lookup_all` result has length 4. -/
theorem lookup_all_len {l : List Char} {u : List (List Int)}
    (h : lookup_all l = some u) : ∀ v ∈ u, v.length = 4 := by
  induction l generalizing u with
  | nil =>
    simp [lookup_all] at h
    subst h; simp
  | cons c cs ih =>
    rw [lookup_all] at h
    rcases hv : base_pairs c with _ | v <;> rw [hv] at h
    · simp at h
    · rcases hu : lookup_all cs with _ | us <;> rw [hu] at h
      · simp at h
      · simp at h
        subst h
        intro w hw
        rcases List.mem_cons.mp hw with rfl | hw'
        · exact base_pairs_len hv
        · exact ih hu w hw'

/-- The aligned vector always has exactly the requested length. -/
theorem align_sequence_length (n : Nat) (l : List Int) :
    (align_sequence n l).length = n := by
  unfold align_sequence
  split
  · simp; omega
  · simp; omega

/-- The aligned vector is the prefix when the input is at least as long. -/
theorem align_sequence_of_le {n : Nat} {l : List Int} (h : n ≤ l.length) :
    align_sequence n l = l.take n := by
  unfold align_sequence
  split
  · rfl
  · next hnot =>
    have hl : l.length = n := by omega
    subst hl
    simp

/-- The complement of an alphabet symbol is again an alphabet symbol. -/
theorem complementBase_mem {c : Char} (h : c ∈ alphabet) :
    complementBase c ∈ alphabet := by
  fin_cases h <;> decide

/-- A symbol outside the alphabet is left unchanged by the complement. -/
theorem complementBase_eq_self {c : Char} (h : c ∉ alphabet) :
    complementBase c = c := by
  unfold complementBase
  rw [List.find?_eq_none.mpr]
  · rfl
  · intro p hp hbeq
    apply h
    have : p.1 = c := by simpa using hbeq
    subst this
    fin_cases hp <;> simp [alphabet]

/-- A successful `lookup_all` result has one code per symbol. -/
theorem lookup_all_length {l : List Char} {u : List (List Int)}
    (h : lookup_all l = some u) : u.length = l.length := by
  induction l generalizing u with
  | nil =>
    simp [lookup_all] at h
    subst h; rfl
  | cons c cs ih =>
    rw [lookup_all] at h
    rcases hv : base_pairs c with _ | v <;> rw [hv] at h
    · simp at h
    · rcases hu : lookup_all cs with _ | us <;> rw [hu] at h
      · simp at h
      · simp at h
        subst h
        simp [ih hu]

/-- `lookup_all` commutes with taking a prefix of the input. -/
theorem lookup_all_take {l : List Char} {u : List (List Int)}
    (h : lookup_all l = some u) (k : Nat) :
    lookup_all (l.take k) = some (u.take k) := by
  induction l generalizing u k with
  | nil =>
    simp [lookup_all] at h
    subst h
    simp [lookup_all]
  | cons c cs ih =>
    rw [lookup_all] at h
    rcases hv : base_pairs c with _ | v <;> rw [hv] at h
    · simp at h
    · rcases hu : lookup_all cs with _ | us <;> rw [hu] at h
      · simp at h
      · simp at h
        subst h
        cases k with
        | zero => simp [lookup_all]
        | succ k =>
          rw [List.take_succ_cons, lookup_all, hv, ih hu k, List.take_succ_cons]

/-- Flattening codes of length 4 yields four entries per symbol. -/
theorem flatten_length_of_len4 {u : List (List Int)}
    (h : ∀ v ∈ u, v.length = 4) : u.flatten.length = 4 * u.length := by
  induction u with
  | nil => rfl
  | cons v us ih =>
    have hv := h v (List.mem_cons_self _ _)
    have hus := ih (fun w hw => h w (List.mem_cons_of_mem _ hw))
    rw [List.flatten_cons, List.length_append, hv, hus, List.length_cons]
    ring

/-- Taking `k` codes before flattening is taking `4 * k` entries after. -/
theorem flatten_take_of_len4 {u : List (List Int)} (k : Nat)
    (h : ∀ v ∈ u, v.length = 4) :
    (u.take k).flatten = u.flatten.take (4 * k) := by
  induction u generalizing k with
  | nil => simp
  | cons v us ih =>
    cases k with
    | zero => simp
    | succ k =>
      have hv := h v (List.mem_cons_self _ _)
      rw [List.take_succ_cons, List.flatten_cons, List.flatten_cons,
        List.take_append_eq_append_take,
        List.take_of_length_le (by omega : v.length ≤ 4 * (k + 1)),
        show 4 * (k + 1) - v.length = 4 * k by omega,
        ih k (fun w hw => h w (List.mem_cons_of_mem _ hw))]

/-! ### Claims -/

/-- Claim C4: the one-hot mapping used by `encode` gives exactly the table
value for every symbol of the alphabet: `A`/`a` map to `(1,0,0,0)`,
`C`/`c` to `(0,1,0,0)`, `G`/`g` to `(0,0,1,0)`, `T`/`t` to `(0,0,0,1)` and
`N`/`n` to `(0,0,0,0)`. -/
theorem claim4_base_pairs_table :
    base_pairs 'A' = some [1, 0, 0, 0] ∧ base_pairs 'a' = some [1, 0, 0, 0] ∧
    base_pairs 'C' = some [0, 1, 0, 0] ∧ base_pairs 'c' = some [0, 1, 0, 0] ∧
    base_pairs 'G' = some [0, 0, 1, 0] ∧ base_pairs 'g' = some [0, 0, 1, 0] ∧
    base_pairs 'T' = some [0, 0, 0, 1] ∧ base_pairs 't' = some [0, 0, 0, 1] ∧
    base_pairs 'N' = some [0, 0, 0, 0] ∧ base_pairs 'n' = some [0, 0, 0, 0] := by
  refine ⟨rfl, rfl, rfl, rfl, rfl, rfl, rfl, rfl, rfl, rfl⟩

/-- Claim C1: for every input sequence over the alphabet (and any strand),
the encoding succeeds and the aligned feature vector
`align_sequence 4000` applied to the flattened one-hot vector has length
exactly 4000; moreover the aligned vector is the first 4000 elements when
the flattened vector is longer than 4000, and the flattened vector
zero-padded on the right when it is shorter or equal. -/
theorem claim1_encode_aligned_length (strand : String) (seq : List Char)
    (h : ∀ c ∈ seq, c ∈ alphabet) :
    ∃ u, to_positive_strand strand seq = some u ∧
      encode strand seq = some (align_sequence 4000 u.flatten) ∧
      (align_sequence 4000 u.flatten).length = 4000 ∧
      (4000 < u.flatten.length → align_sequence 4000 u.flatten = u.flatten.take 4000) ∧
      (u.flatten.length ≤ 4000 →
        align_sequence 4000 u.flatten =
          u.flatten ++ List.replicate (4000 - u.flatten.length) 0) := by
  have hex : ∃ u, to_positive_strand strand seq = some u := by
    unfold to_positive_strand
    split
    · apply lookup_all_isSome
      intro c hc
      obtain ⟨d, hd, rfl⟩ := List.mem_map.mp hc
      exact complementBase_mem (h d hd)
    · exact lookup_all_isSome h
  obtain ⟨u, hu⟩ := hex
  refine ⟨u, hu, ?_, align_sequence_length _ _, ?_, ?_⟩
  · simp [encode, hu]
  · intro hgt
    unfold align_sequence
    rw [if_pos hgt]
  · intro hle
    unfold align_sequence
    rw [if_neg (by omega)]

/-- Witness for claim C1 at the concrete sequence `"AC"` on strand `+`. -/
theorem claim1_witness :
    (∀ c ∈ (['A', 'C'] : List Char), c ∈ alphabet) ∧
    (∃ u, to_positive_strand "+" ['A', 'C'] = some u ∧
      encode "+" ['A', 'C'] = some (align_sequence 4000 u.flatten) ∧
      (align_sequence 4000 u.flatten).length = 4000 ∧
      (4000 < u.flatten.length → align_sequence 4000 u.flatten = u.flatten.take 4000) ∧
      (u.flatten.length ≤ 4000 →
        align_sequence 4000 u.flatten =
          u.flatten ++ List.replicate (4000 - u.flatten.length) 0)) :=
  ⟨by decide, claim1_encode_aligned_length "+" ['A', 'C'] (by decide)⟩

/-- Claim C10: any strand other than the exact string `"-"` is treated as
positive strand: the sequence is encoded as given (the same dictionary
lookups as with no strand correction at all), and on an alphabet sequence
no error is raised. -/
theorem claim10_strand_other_positive (strand : String) (seq : List Char)
    (h : strand ≠ "-") :
    to_positive_strand strand seq = lookup_all seq ∧
    ((∀ c ∈ seq, c ∈ alphabet) → ∃ u, to_positive_strand strand seq = some u) := by
  have he : to_positive_strand strand seq = lookup_all seq := by
    unfold to_positive_strand
    rw [if_neg h]
  exact ⟨he, fun hall => he ▸ lookup_all_isSome hall⟩

/-- Witness for claim C10 at the concrete strand `"x"` and sequence `"A"`. -/
theorem claim10_witness :
    ("x" ≠ "-") ∧
    (to_positive_strand "x" ['A'] = lookup_all ['A'] ∧
     ((∀ c ∈ (['A'] : List Char), c ∈ alphabet) →
       ∃ u, to_positive_strand "x" ['A'] = some u)) :=
  ⟨by decide, claim10_strand_other_positive "x" ['A'] (by decide)⟩

/-- Counterexample to claim C2: on sequence `"AACG"` with strand `-`, the
encoded prefix is NOT the one-hot codes of `C`, `G`, `T`, `T` (the reverse
complement): `to_positive_strand` only complements, it does not reverse. -/
theorem claim2_counterexample :
    ¬ ((encode "-" ['A', 'A', 'C', 'G']).getD []).take 16 =
      [0, 1, 0, 0, 0, 0, 1, 0, 0, 0, 0, 1, 0, 0, 0, 1] := by
  decide

/-- Claim C2 amended: in the strand-correcting variant, for a record with
strand `-`, `to_positive_strand` encodes the plain complement of the
symbol sequence — each symbol replaced by its Watson-Crick complement
`[[A→T, T→A, C→G, G→C]]` with the symbol order PRESERVED, not reversed; in
particular, for sequence `"AACG"` with strand `-`, the encoded prefix
equals the one-hot codes of `T`, `T`, `G`, `C` in that order. -/
theorem claim2_amended (seq : List Char) :
    to_positive_strand "-" seq = lookup_all (seq.map complementBase) ∧
    (complementBase 'A' = 'T' ∧ complementBase 'T' = 'A' ∧
     complementBase 'C' = 'G' ∧ complementBase 'G' = 'C') ∧
    encode "-" ['A', 'A', 'C', 'G'] =
      some ([0, 0, 0, 1, 0, 0, 0, 1, 0, 0, 1, 0, 0, 1, 0, 0] ++
        List.replicate 3984 0) := by
  refine ⟨?_, ⟨rfl, rfl, rfl, rfl⟩, ?_⟩
  · unfold to_positive_strand
    rw [if_pos rfl]
  · rfl

/-- Claim C6: a sequence of exactly 3 alphabet symbols is encoded to a
vector whose first 12 entries are the concatenation of the three one-hot
codes in sequence order and whose remaining 3988 entries are all 0. -/
theorem claim6_pad_three (c1 c2 c3 : Char) (v1 v2 v3 : List Int)
    (h1 : base_pairs c1 = some v1) (h2 : base_pairs c2 = some v2)
    (h3 : base_pairs c3 = some v3) :
    encode "+" [c1, c2, c3] =
      some ((v1 ++ v2 ++ v3) ++ List.replicate 3988 0) ∧
    (v1 ++ v2 ++ v3).length = 12 := by
  have l1 := base_pairs_len h1
  have l2 := base_pairs_len h2
  have l3 := base_pairs_len h3
  have hlen : (v1 ++ v2 ++ v3).length = 12 := by
    simp [l1, l2, l3]
  refine ⟨?_, hlen⟩
  have hlook : lookup_all [c1, c2, c3] = some [v1, v2, v3] := by
    simp [lookup_all, h1, h2, h3]
  have hpos : to_positive_strand "+" [c1, c2, c3] = some [v1, v2, v3] := by
    unfold to_positive_strand
    rw [if_neg (by decide)]
    exact hlook
  have hflat : ([v1, v2, v3] : List (List Int)).flatten = v1 ++ v2 ++ v3 := by
    simp
  rw [encode, hpos, Option.map_some', hflat]
  unfold align_sequence
  rw [if_neg (by omega), hlen]

/-- Witness for claim C6 at the concrete sequence `"ACG"`. -/
theorem claim6_witness :
    base_pairs 'A' = some [1, 0, 0, 0] ∧
    base_pairs 'C' = some [0, 1, 0, 0] ∧
    base_pairs 'G' = some [0, 0, 1, 0] ∧
    (encode "+" ['A', 'C', 'G'] =
      some (([1, 0, 0, 0] ++ [0, 1, 0, 0] ++ [0, 0, 1, 0]) ++
        List.replicate 3988 0) ∧
     (([1, 0, 0, 0] ++ [0, 1, 0, 0] ++ [0, 0, 1, 0]) : List Int).length = 12) :=
  ⟨rfl, rfl, rfl, claim6_pad_three 'A' 'C' 'G' _ _ _ rfl rfl rfl⟩

/-- Claim C5: truncation keeps a prefix: for a sequence of at least 1000
alphabet symbols, encoding the full sequence (on either strand) yields the
same aligned 4000-element vector as encoding just its first 1000 symbols;
content beyond symbol position 1000 never influences the output. -/
theorem claim5_truncation_keeps_head (strand : String) (seq : List Char)
    (hlen : 1000 ≤ seq.length) (h : ∀ c ∈ seq, c ∈ alphabet) :
    encode strand seq = encode strand (seq.take 1000) := by
  rcases eq_or_ne strand "-" with hstr | hstr
  case inr =>
    have h1 : to_positive_strand strand seq = lookup_all seq := by
      unfold to_positive_strand
      rw [if_neg hstr]
    have h2 : to_positive_strand strand (seq.take 1000) =
        lookup_all (seq.take 1000) := by
      unfold to_positive_strand
      rw [if_neg hstr]
    obtain ⟨u, hu⟩ := lookup_all_isSome h
    have hu4 := lookup_all_len hu
    have hulen : u.length = seq.length := lookup_all_length hu
    have htake := lookup_all_take hu 1000
    rw [encode, encode, h1, h2, hu, htake, Option.map_some', Option.map_some']
    congr 1
    have hflen : u.flatten.length = 4 * u.length := flatten_length_of_len4 hu4
    have hge : 4000 ≤ u.flatten.length := by
      rw [hflen, hulen]
      omega
    have htf : (u.take 1000).flatten = u.flatten.take 4000 := by
      have := flatten_take_of_len4 1000 hu4
      norm_num at this
      exact this
    have hlen2 : 4000 ≤ (u.flatten.take 4000).length := by
      rw [List.length_take]
      omega
    rw [align_sequence_of_le hge, htf, align_sequence_of_le hlen2,
      List.take_take]
    norm_num
  case inl =>
    subst hstr
    have hall : ∀ c ∈ seq.map complementBase, c ∈ alphabet := by
      intro c hc
      obtain ⟨d, hd, rfl⟩ := List.mem_map.mp hc
      exact complementBase_mem (h d hd)
    have h1 : to_positive_strand "-" seq = lookup_all (seq.map complementBase) := by
      unfold to_positive_strand
      rw [if_pos rfl]
    have h2 : to_positive_strand "-" (seq.take 1000) =
        lookup_all ((seq.map complementBase).take 1000) := by
      unfold to_positive_strand
      rw [if_pos rfl, List.map_take]
    obtain ⟨u, hu⟩ := lookup_all_isSome hall
    have hu4 := lookup_all_len hu
    have hulen : u.length = (seq.map complementBase).length := lookup_all_length hu
    have htake := lookup_all_take hu 1000
    rw [encode, encode, h1, h2, hu, htake, Option.map_some', Option.map_some']
    congr 1
    have hflen : u.flatten.length = 4 * u.length := flatten_length_of_len4 hu4
    have hge : 4000 ≤ u.flatten.length := by
      rw [hflen, hulen, List.length_map]
      omega
    have htf : (u.take 1000).flatten = u.flatten.take 4000 := by
      have := flatten_take_of_len4 1000 hu4
      norm_num at this
      exact this
    have hlen2 : 4000 ≤ (u.flatten.take 4000).length := by
      rw [List.length_take]
      omega
    rw [align_sequence_of_le hge, htf, align_sequence_of_le hlen2,
      List.take_take]
    norm_num

/-- Witness for claim C5 at a concrete 1200-symbol sequence. -/
theorem claim5_witness :
    (1000 ≤ (List.replicate 1200 'A').length) ∧
    (∀ c ∈ List.replicate 1200 'A', c ∈ alphabet) ∧
    encode "+" (List.replicate 1200 'A') =
      encode "+" ((List.replicate 1200 'A').take 1000) :=
  ⟨by rw [List.length_replicate]; norm_num,
   fun c hc => by rw [List.eq_of_mem_replicate hc]; decide,
   claim5_truncation_keeps_head "+" _
     (by rw [List.length_replicate]; norm_num)
     (fun c hc => by rw [List.eq_of_mem_replicate hc]; decide)⟩

/-- Counterexample to claim C3: for the record with description
`"id|1|e|+"` and sequence `"AX"` (the symbol `X` is outside the alphabet),
`process_seq_record` fails, yet starting from empty collections the label
collection `y` has become `[1]`: the failed call DOES change `y`, because
`y.append` precedes the encoding. -/
theorem claim3_counterexample :
    process_seq_record ⟨"id", "id|1|e|+", ['A', 'X']⟩ ⟨[], []⟩ =
      (⟨[], [1]⟩, false) ∧
    (⟨[], [1]⟩ : DataState) ≠ ⟨[], []⟩ := by
  constructor
  · rfl
  · decide

/-- Claim C3 amended: for a record whose description parses (at least 4
pipe-delimited fields, field 1 an integer `k`) but whose sequence contains
a symbol outside the alphabet, `process_seq_record` aborts with a missing-
key failure and appends nothing to the feature collection `X`; however the
label `k` HAS already been appended to `y` by the failed call, since the
label append precedes the encoding. -/
theorem claim3_unknown_symbol_aborts (r : SeqRecord) (st : DataState) (k : Int)
    (h4 : 4 ≤ (split_on_pipe r.description).length)
    (hk : ((split_on_pipe r.description)[1]? >>= parseInt) = some k)
    (hbad : ∃ c ∈ r.seq, c ∉ alphabet) :
    process_seq_record r st = ({ st with y := st.y ++ [k] }, false) := by
  obtain ⟨s, hs⟩ : ∃ s, (split_on_pipe r.description)[3]? = some s := by
    have h3 : 3 < (split_on_pipe r.description).length := by omega
    exact ⟨_, List.getElem?_eq_getElem h3⟩
  have hnone : to_positive_strand s r.seq = none := by
    unfold to_positive_strand
    split
    · apply lookup_all_eq_none
      obtain ⟨c, hc, hcn⟩ := hbad
      refine ⟨complementBase c, List.mem_map_of_mem _ hc, ?_⟩
      rw [complementBase_eq_self hcn]
      exact hcn
    · exact lookup_all_eq_none hbad
  simp only [process_seq_record]
  rw [hk]
  simp [hs, hnone]

/-- Witness for the amended claim C3 at the concrete record
`⟨"id", "id|1|e|+", "AX"⟩`. -/
theorem claim3_witness :
    (4 ≤ (split_on_pipe "id|1|e|+").length) ∧
    ((split_on_pipe "id|1|e|+")[1]? >>= parseInt) = some 1 ∧
    (∃ c ∈ (['A', 'X'] : List Char), c ∉ alphabet) ∧
    process_seq_record ⟨"id", "id|1|e|+", ['A', 'X']⟩ ⟨[], []⟩ =
      (⟨[], [1]⟩, false) :=
  ⟨by decide, by decide, ⟨'X', by decide, by decide⟩,
   claim3_unknown_symbol_aborts ⟨"id", "id|1|e|+", ['A', 'X']⟩ ⟨[], []⟩ 1
     (by decide) (by decide) ⟨'X', by decide, by decide⟩⟩

/-- Claim C7: in the variant with strand correction disabled, the strand
field never affects the result: two records with the same symbol sequence
whose descriptions agree on split field 1 (in particular, records
differing only in the strand field 3) are processed to identical states —
same appended label and bit-identical feature vector. -/
theorem claim7_nsc_strand_irrelevant (r1 r2 : SeqRecord) (st : DataState)
    (hseq : r1.seq = r2.seq)
    (h1 : (split_on_pipe r1.description)[1]? = (split_on_pipe r2.description)[1]?) :
    process_seq_record_nsc r1 st = process_seq_record_nsc r2 st := by
  simp only [process_seq_record_nsc]
  rw [hseq, h1]

/-- Witness for claim C7: records differing only in the strand field
(`+` versus `-`) yield identical results. -/
theorem claim7_witness :
    (['A'] : List Char) = ['A'] ∧
    (split_on_pipe "id|1|e|+")[1]? = (split_on_pipe "id|1|e|-")[1]? ∧
    process_seq_record_nsc ⟨"id", "id|1|e|+", ['A']⟩ ⟨[], []⟩ =
      process_seq_record_nsc ⟨"id", "id|1|e|-", ['A']⟩ ⟨[], []⟩ :=
  ⟨rfl, by decide,
   claim7_nsc_strand_irrelevant ⟨"id", "id|1|e|+", ['A']⟩
     ⟨"id", "id|1|e|-", ['A']⟩ ⟨[], []⟩ rfl (by decide)⟩

/-- Claim C8: for a record whose description splits into at least 4
pipe-delimited fields with field 1 parsing as the integer `k`,
`process_seq_record` appends exactly `k` to the label collection verbatim:
no 0/1 check is performed, any integer is accepted and stored unchanged. -/
theorem claim8_label_verbatim (r : SeqRecord) (st : DataState) (k : Int)
    (h4 : 4 ≤ (split_on_pipe r.description).length)
    (hk : ((split_on_pipe r.description)[1]? >>= parseInt) = some k) :
    (process_seq_record r st).1.y = st.y ++ [k] := by
  simp only [process_seq_record]
  rw [hk]
  rcases h3 : (split_on_pipe r.description)[3]? with _ | s
  · simp [h3]
  · rcases hp : to_positive_strand s r.seq with _ | u <;> simp [h3, hp]

/-- Witness for claim C8 at the out-of-range label `-7`. -/
theorem claim8_witness :
    (4 ≤ (split_on_pipe "id|-7|e|+").length) ∧
    ((split_on_pipe "id|-7|e|+")[1]? >>= parseInt) = some (-7) ∧
    (process_seq_record ⟨"id", "id|-7|e|+", ['A']⟩ ⟨[], []⟩).1.y =
      [] ++ [(-7 : Int)] :=
  ⟨by decide, by decide,
   claim8_label_verbatim ⟨"id", "id|-7|e|+", ['A']⟩ ⟨[], []⟩ (-7)
     (by decide) (by decide)⟩

/-- Claim C9: encoding is deterministic and depends only on the record's
description and symbol sequence: two records agreeing on those two fields
(their identifiers may differ) are processed to identical outputs from any
starting state, with no hidden randomness or other state. -/
theorem claim9_deterministic (r1 r2 : SeqRecord) (st : DataState)
    (hdesc : r1.description = r2.description) (hseq : r1.seq = r2.seq) :
    process_seq_record r1 st = process_seq_record r2 st := by
  simp only [process_seq_record]
  rw [hdesc, hseq]

/-- Witness for claim C9: two copies of the same record (with different
identifiers) yield identical outputs. -/
theorem claim9_witness :
    ("id|1|e|+" : String) = "id|1|e|+" ∧ (['A'] : List Char) = ['A'] ∧
    process_seq_record ⟨"a", "id|1|e|+", ['A']⟩ ⟨[], []⟩ =
      process_seq_record ⟨"b", "id|1|e|+", ['A']⟩ ⟨[], []⟩ :=
  ⟨rfl, rfl,
   claim9_deterministic ⟨"a", "id|1|e|+", ['A']⟩ ⟨"b", "id|1|e|+", ['A']⟩
     ⟨[], []⟩ rfl rfl⟩
